import Mathlib

/-!
Verification of the scatter-plot data pipeline of the obsidian-scatter
repository.

The pipeline (data.ts and render.ts) is pure TypeScript over JavaScript
numbers; it is embedded here with exact rational arithmetic (`ℚ`).  Host
facilities the code only observes through a fixed interface are modelled as
data: the outcome of `entry.getValue` (an exception, null/undefined, or a
wrapped value), and the JavaScript `Number(string)` conversion (a function
`String → JSNum` whose result the code inspects via `Number.isNaN` and
`Number.isFinite`).
-/

/-- Result of the JavaScript `Number(string)` conversion: NaN, positive or
negative Infinity, or a finite numeric value. -/
inductive JSNum where
  | nan : JSNum
  | posInf : JSNum
  | negInf : JSNum
  | finite (q : ℚ) : JSNum
deriving DecidableEq

/-- A non-null value produced by `entry.getValue`: its string conversion, the
result of its optional `isEmpty()` method, and its JavaScript truthiness
(consulted by the `!value` fallback check). -/
structure JSValue where
  str : String
  isEmptyMethod : Option Bool
  truthy : Bool
deriving DecidableEq

/-- Outcome of a call to `entry.getValue(propertyId)`: either an exception
(whose text the extractor catches and stringifies) or a possibly
null/undefined value. -/
inductive GetValueOutcome where
  | throws (msg : String)
  | returns (val : Option JSValue)
deriving DecidableEq

/-- The slice of an Obsidian `TFile` the pipeline reads. -/
structure TFile where
  path : String
  basename : String
deriving DecidableEq

/-- Model of a Bases entry: field lookup plus the file it came from. -/
structure BasesEntry where
  getValue : String → GetValueOutcome
  file : TFile

/-- The view configuration triple from types.ts. -/
structure ScatterConfig where
  xAxis : Option String
  yAxis : Option String
  colorBy : Option String

/-- `isValueEmpty` from data.ts: null/undefined are empty, a value exposing an
`isEmpty()` method delegates to it, and otherwise JavaScript falsiness
decides. -/
def isValueEmpty : Option JSValue → Bool
  | none => true
  | some v =>
    match v.isEmptyMethod with
    | some b => b
    | none => !v.truthy

/-- `NumericExtractionResult` from types.ts. -/
inductive NumericExtractionResult where
  | success (value : ℚ)
  | failure (reason : String)
deriving DecidableEq

/-- `CategoryExtractionResult` from types.ts. -/
inductive CategoryExtractionResult where
  | success (value : String)
  | failure
deriving DecidableEq

/-- `extractNumericValue` from data.ts.  The try/catch is folded into the
match on the `getValue` outcome: the `throws` branch is the catch handler, so
the function is total and never raises. -/
def extractNumericValue (jsNumber : String → JSNum) (entry : BasesEntry)
    (propertyId : String) : NumericExtractionResult :=
  match entry.getValue propertyId with
  | .throws e => .failure (s!"Failed to read property \"{propertyId}\": {e}")
  | .returns none => .failure (s!"Property \"{propertyId}\" is empty")
  | .returns (some v) =>
    if isValueEmpty (some v) then
      .failure (s!"Property \"{propertyId}\" is empty")
    else
      match jsNumber v.str with
      | .nan =>
        .failure (s!"Property \"{propertyId}\" value \"{v.str}\" is not numeric")
      | .posInf => .failure (s!"Property \"{propertyId}\" value is not finite")
      | .negInf => .failure (s!"Property \"{propertyId}\" value is not finite")
      | .finite q => .success q

/-- `extractCategoryValue` from data.ts. -/
def extractCategoryValue (entry : BasesEntry) (propertyId : Option String) :
    CategoryExtractionResult :=
  match propertyId with
  | none => .failure
  | some pid =>
    match entry.getValue pid with
    | .throws _ => .failure
    | .returns none => .failure
    | .returns (some v) =>
      if isValueEmpty (some v) then .failure else .success v.str

/-- `ScatterPoint` from types.ts. -/
structure ScatterPoint where
  x : ℚ
  y : ℚ
  category : Option String
  label : String
  file : TFile
  entry : BasesEntry

/-- `SkippedEntry` from types.ts. -/
structure SkippedEntry where
  file : TFile
  reason : String
deriving DecidableEq

/-- Return type of `entryToPoint`: the union `ScatterPoint | SkippedEntry`. -/
inductive EntryResult where
  | point (p : ScatterPoint)
  | skipped (s : SkippedEntry)

/-- `entryToPoint` from data.ts, with the checks in source order: x-axis
configured, y-axis configured, X extraction, Y extraction, then the optional
category extraction whose failure only yields a null category. -/
def entryToPoint (jsNumber : String → JSNum) (entry : BasesEntry)
    (config : ScatterConfig) : EntryResult :=
  match config.xAxis with
  | none => .skipped ⟨entry.file, "X axis property not configured"⟩
  | some xAxis =>
    match config.yAxis with
    | none => .skipped ⟨entry.file, "Y axis property not configured"⟩
    | some yAxis =>
      match extractNumericValue jsNumber entry xAxis with
      | .failure reason => .skipped ⟨entry.file, reason⟩
      | .success xValue =>
        match extractNumericValue jsNumber entry yAxis with
        | .failure reason => .skipped ⟨entry.file, reason⟩
        | .success yValue =>
          let category :=
            match extractCategoryValue entry config.colorBy with
            | .success c => some c
            | .failure => none
          .point ⟨xValue, yValue, category, entry.file.basename, entry.file, entry⟩

/-- Loop of `extractCategories` from data.ts: the `seen` set and the
`categories` output list, filled in input order. -/
def extractCategoriesGo : List ScatterPoint → List String → List String → List String
  | [], _, categories => categories
  | p :: rest, seen, categories =>
    match p.category with
    | none => extractCategoriesGo rest seen categories
    | some c =>
      if c ∈ seen then extractCategoriesGo rest seen categories
      else extractCategoriesGo rest (c :: seen) (categories ++ [c])

/-- `extractCategories` from data.ts. -/
def extractCategories (points : List ScatterPoint) : List String :=
  extractCategoriesGo points [] []

/-- `AxisBounds` from types.ts. -/
structure AxisBounds where
  min : ℚ
  max : ℚ
deriving DecidableEq

/-- `PlotBounds` from types.ts. -/
structure PlotBounds where
  x : AxisBounds
  y : AxisBounds
deriving DecidableEq

/-- `calculateAxisBounds` from data.ts.  `Math.min(...values)` and
`Math.max(...values)` become folds; the JavaScript `|| 1` fallback fires
exactly when `|min| * paddingPercent` is zero (there is no NaN in `ℚ`). -/
def calculateAxisBounds (values : List ℚ) (paddingPercent : ℚ) :
    Option AxisBounds :=
  match values with
  | [] => none
  | v :: vs =>
    let mn := vs.foldl min v
    let mx := vs.foldl max v
    let range := mx - mn
    let padding :=
      if range = 0 then
        if |mn| * paddingPercent = 0 then 1 else |mn| * paddingPercent
      else range * paddingPercent
    some ⟨mn - padding, mx + padding⟩

/-- `createLinearScale` from data.ts. -/
def createLinearScale (domainMin domainMax rangeMin rangeMax : ℚ) : ℚ → ℚ :=
  let domainSpan := domainMax - domainMin
  let rangeSpan := rangeMax - rangeMin
  if domainSpan = 0 then fun _ => (rangeMin + rangeMax) / 2
  else fun value =>
    let normalized := (value - domainMin) / domainSpan
    rangeMin + normalized * rangeSpan

/-- `createInverseLinearScale` from data.ts. -/
def createInverseLinearScale (domainMin domainMax rangeMin rangeMax : ℚ) :
    ℚ → ℚ :=
  let domainSpan := domainMax - domainMin
  let rangeSpan := rangeMax - rangeMin
  if rangeSpan = 0 then fun _ => (domainMin + domainMax) / 2
  else fun screenValue =>
    let normalized := (screenValue - rangeMin) / rangeSpan
    domainMin + normalized * domainSpan

/-- Claim C5: with a degenerate domain `createLinearScale` is the constant
range midpoint, and with a degenerate range `createInverseLinearScale` is the
constant domain midpoint, so the span divisions are guarded. -/
theorem c5_degenerate_scales (a r0 r1 d0 d1 r x y : ℚ) :
    createLinearScale a a r0 r1 x = (r0 + r1) / 2 ∧
    createInverseLinearScale d0 d1 r r y = (d0 + d1) / 2 := by
  constructor <;> simp [createLinearScale, createInverseLinearScale]

/-- Claim C6: for a non-degenerate domain and range, the inverse scale undoes
the forward scale exactly (the embedding computes in `ℚ`, so the floating
tolerance of the spec is met exactly). -/
theorem c6_scale_inverse (d0 d1 r0 r1 v : ℚ) (hd : d0 ≠ d1) (hr : r0 ≠ r1) :
    createInverseLinearScale d0 d1 r0 r1 (createLinearScale d0 d1 r0 r1 v) = v := by
  have hds : d1 - d0 ≠ 0 := sub_ne_zero.mpr (Ne.symm hd)
  have hrs : r1 - r0 ≠ 0 := sub_ne_zero.mpr (Ne.symm hr)
  simp only [createLinearScale, createInverseLinearScale, if_neg hds, if_neg hrs]
  field_simp
  ring

/-- Witness for C6 at domain `[0, 2]`, range `[0, 10]`, `v = 1`. -/
theorem c6_witness :
    createInverseLinearScale 0 2 0 10 (createLinearScale 0 2 0 10 1) = 1 :=
  c6_scale_inverse 0 2 0 10 1 (by norm_num) (by norm_num)

/-- `ColorPalette` from types.ts. -/
structure ColorPalette where
  fallback : String
  colors : List String
deriving DecidableEq

/-- `InnerDimensions` from types.ts. -/
structure InnerDimensions where
  width : ℚ
  height : ℚ
deriving DecidableEq

/-- `RenderedPoint` from types.ts: a `ScatterPoint` plus the three fields the
screen transform adds. -/
structure RenderedPoint extends ScatterPoint where
  screenX : ℚ
  screenY : ℚ
  color : String

/-- JavaScript `Map.set` on an insertion-ordered association list: an existing
key keeps its position and gets the new value, a new key is appended. -/
def mapSet : List (String × String) → String → String → List (String × String)
  | [], k, v => [(k, v)]
  | (k0, v0) :: rest, k, v =>
    if k0 = k then (k, v) :: rest else (k0, v0) :: mapSet rest k v

/-- JavaScript `Map.get` on the association list model. -/
def mapGet : List (String × String) → String → Option String
  | [], _ => none
  | (k0, v0) :: rest, k => if k0 = k then some v0 else mapGet rest k

/-- Loop of `createCategoryColorMap` from render.ts: the `forEach` over the
categories with its running index. -/
def createCategoryColorMapGo (palette : ColorPalette) :
    List String → Nat → List (String × String) → List (String × String)
  | [], _, colorMap => colorMap
  | category :: rest, index, colorMap =>
    createCategoryColorMapGo palette rest (index + 1)
      (mapSet colorMap category
        (palette.colors.getD (index % palette.colors.length) ("undefined")))

/-- `createCategoryColorMap` from render.ts. -/
def createCategoryColorMap (categories : List String) (palette : ColorPalette) :
    List (String × String) :=
  createCategoryColorMapGo palette categories 0 []

/-- `getPointColor` from render.ts. -/
def getPointColor (point : ScatterPoint) (colorMap : List (String × String))
    (fallback : String) : String :=
  match point.category with
  | none => fallback
  | some c => (mapGet colorMap c).getD fallback

/-- `transformPointsToScreen` from render.ts. -/
def transformPointsToScreen (points : List ScatterPoint) (bounds : PlotBounds)
    (inner : InnerDimensions) (colorMap : List (String × String))
    (palette : ColorPalette) : List RenderedPoint :=
  let scaleX := createLinearScale bounds.x.min bounds.x.max 0 inner.width
  let scaleY := createLinearScale bounds.y.min bounds.y.max inner.height 0
  points.map fun point =>
    ⟨point, scaleX point.x, scaleY point.y, getPointColor point colorMap palette.fallback⟩

/-- `generateTicks` from render.ts.  `Array.from` with a `length` object and
an index-based body becomes a map over `List.range`; the `count - 1` divisor
is JavaScript number arithmetic, hence `(count : ℚ) - 1`. -/
def generateTicks (bounds : AxisBounds) (count : Nat) : List ℚ :=
  let range := bounds.max - bounds.min
  let step := range / ((count : ℚ) - 1)
  (List.range count).map fun i : Nat => bounds.min + (i : ℚ) * step

/-- Claim C7: for tick count `n ≥ 2`, `generateTicks` returns exactly `n`
values, the i-th being `min + i * (max - min) / (n - 1)`, starting at `min`,
ending exactly at `max`, and for `n = 2` exactly `[min, max]`. -/
theorem c7_generateTicks_spec (b : AxisBounds) (n : Nat) (hn : 2 ≤ n) :
    (generateTicks b n).length = n ∧
    (∀ i : Nat, i < n →
      (generateTicks b n)[i]? =
        some (b.min + (i : ℚ) * ((b.max - b.min) / ((n : ℚ) - 1)))) ∧
    (generateTicks b n)[0]? = some b.min ∧
    (generateTicks b n)[n - 1]? = some b.max ∧
    generateTicks b 2 = [b.min, b.max] := by
  have hunfold : generateTicks b n =
      (List.range n).map
        (fun i : Nat => b.min + (i : ℚ) * ((b.max - b.min) / ((n : ℚ) - 1))) := by
    simp only [generateTicks]
  have hlen : (generateTicks b n).length = n := by
    rw [hunfold, List.length_map, List.length_range]
  have helt : ∀ i : Nat, i < n →
      (generateTicks b n)[i]? =
        some (b.min + (i : ℚ) * ((b.max - b.min) / ((n : ℚ) - 1))) := by
    intro i hi
    rw [hunfold, List.getElem?_map, List.getElem?_range hi]
    rfl
  have hn1 : ((n : ℚ) - 1) ≠ 0 := by
    have : (2 : ℚ) ≤ (n : ℚ) := by exact_mod_cast hn
    nlinarith
  refine ⟨hlen, helt, ?_, ?_, ?_⟩
  · have h0 := helt 0 (by omega)
    simpa using h0
  · have hlast := helt (n - 1) (by omega)
    have hcast : ((n - 1 : Nat) : ℚ) = (n : ℚ) - 1 := by
      have h1 : 1 ≤ n := by omega
      push_cast [h1]
      ring
    rw [hlast, hcast, div_eq_mul_inv, mul_comm ((n : ℚ) - 1)]
    rw [mul_assoc, inv_mul_cancel₀ hn1, mul_one]
    norm_num
  · simp [generateTicks, List.range_succ]
    norm_num

/-- Witness for C7 at bounds `{min := 0, max := 100}` and `n = 5`: the last
tick is exactly the maximum. -/
theorem c7_witness : (generateTicks ⟨0, 100⟩ 5)[4]? = some 100 := by
  have h := (c7_generateTicks_spec ⟨0, 100⟩ 5 (by norm_num)).2.2.2.1
  simpa using h

/-- A left fold of `min` lands on the seed or a list element. -/
theorem foldlMin_mem (vs : List ℚ) : ∀ v : ℚ, vs.foldl min v ∈ v :: vs := by
  induction vs with
  | nil => intro v; simp
  | cons a t ih =>
    intro v
    simp only [List.foldl_cons]
    rcases List.mem_cons.mp (ih (min v a)) with h1 | h1
    · rw [h1]
      rcases min_choice v a with hm | hm <;> rw [hm] <;> simp
    · exact List.mem_cons_of_mem _ (List.mem_cons_of_mem _ h1)

/-- A left fold of `min` is below its seed. -/
theorem foldlMin_le_seed (vs : List ℚ) : ∀ v : ℚ, vs.foldl min v ≤ v := by
  induction vs with
  | nil => intro v; simp
  | cons a t ih =>
    intro v
    simp only [List.foldl_cons]
    exact le_trans (ih (min v a)) (min_le_left v a)

/-- A left fold of `min` is below the seed and every list element. -/
theorem foldlMin_le (vs : List ℚ) : ∀ v z : ℚ, z ∈ v :: vs → vs.foldl min v ≤ z := by
  induction vs with
  | nil =>
    intro v z hz
    simp only [List.mem_singleton] at hz
    simp [hz]
  | cons a t ih =>
    intro v z hz
    simp only [List.foldl_cons]
    rcases List.mem_cons.mp hz with h1 | h1
    · subst h1
      exact le_trans (foldlMin_le_seed t (min z a)) (min_le_left z a)
    · rcases List.mem_cons.mp h1 with h2 | h2
      · subst h2
        exact le_trans (foldlMin_le_seed t (min v z)) (min_le_right v z)
      · exact ih (min v a) z (List.mem_cons_of_mem _ h2)

/-- A left fold of `max` lands on the seed or a list element. -/
theorem foldlMax_mem (vs : List ℚ) : ∀ v : ℚ, vs.foldl max v ∈ v :: vs := by
  induction vs with
  | nil => intro v; simp
  | cons a t ih =>
    intro v
    simp only [List.foldl_cons]
    rcases List.mem_cons.mp (ih (max v a)) with h1 | h1
    · rw [h1]
      rcases max_choice v a with hm | hm <;> rw [hm] <;> simp
    · exact List.mem_cons_of_mem _ (List.mem_cons_of_mem _ h1)

/-- A left fold of `max` is above its seed. -/
theorem foldlMax_ge_seed (vs : List ℚ) : ∀ v : ℚ, v ≤ vs.foldl max v := by
  induction vs with
  | nil => intro v; simp
  | cons a t ih =>
    intro v
    simp only [List.foldl_cons]
    exact le_trans (le_max_left v a) (ih (max v a))

/-- A left fold of `max` is above the seed and every list element. -/
theorem foldlMax_ge (vs : List ℚ) : ∀ v z : ℚ, z ∈ v :: vs → z ≤ vs.foldl max v := by
  induction vs with
  | nil =>
    intro v z hz
    simp only [List.mem_singleton] at hz
    simp [hz]
  | cons a t ih =>
    intro v z hz
    simp only [List.foldl_cons]
    rcases List.mem_cons.mp hz with h1 | h1
    · subst h1
      exact le_trans (le_max_left z a) (foldlMax_ge_seed t (max z a))
    · rcases List.mem_cons.mp h1 with h2 | h2
      · subst h2
        exact le_trans (le_max_right v z) (foldlMax_ge_seed t (max v z))
      · exact ih (max v a) z (List.mem_cons_of_mem _ h2)

/-- Claim C2: `calculateAxisBounds` is absent on the empty list; on a
non-empty list it pads the true minimum and maximum by
`range * fraction`, using `|min| * fraction` when the range is zero and the
hard fallback `1` when that product is also zero.  In particular a single
`v ≠ 0` with the default fraction yields `[v - 0.05|v|, v + 0.05|v|]` and a
single `0` yields `[-1, 1]`. -/
theorem c2_calculateAxisBounds_spec (values : List ℚ) (pp : ℚ) :
    (values = [] → calculateAxisBounds values pp = none) ∧
    (values ≠ [] → ∃ mn mx : ℚ, mn ∈ values ∧ mx ∈ values ∧
      (∀ z ∈ values, mn ≤ z ∧ z ≤ mx) ∧
      calculateAxisBounds values pp =
        some ⟨mn - (if mx - mn = 0 then
                      if |mn| * pp = 0 then 1 else |mn| * pp
                    else (mx - mn) * pp),
              mx + (if mx - mn = 0 then
                      if |mn| * pp = 0 then 1 else |mn| * pp
                    else (mx - mn) * pp)⟩) ∧
    (∀ v : ℚ, v ≠ 0 → calculateAxisBounds [v] (5 / 100) =
      some ⟨v - |v| * (5 / 100), v + |v| * (5 / 100)⟩) ∧
    calculateAxisBounds [(0 : ℚ)] (5 / 100) = some ⟨-1, 1⟩ := by
  refine ⟨?_, ?_, ?_, ?_⟩
  · intro h
    subst h
    rfl
  · intro hne
    match values with
    | [] => exact absurd rfl hne
    | v :: vs =>
      refine ⟨vs.foldl min v, vs.foldl max v, foldlMin_mem vs v, foldlMax_mem vs v,
        fun z hz => ⟨foldlMin_le vs v z hz, foldlMax_ge vs v z hz⟩, ?_⟩
      rfl
  · intro v hv
    have habs : |v| * (5 / 100 : ℚ) ≠ 0 :=
      mul_ne_zero (abs_ne_zero.mpr hv) (by norm_num)
    simp only [calculateAxisBounds, List.foldl_nil, sub_self, if_pos, if_neg habs]
  · simp only [calculateAxisBounds, List.foldl_nil]
    norm_num

/-- Witness for C2 at the single value `3` with the default fraction. -/
theorem c2_witness :
    calculateAxisBounds [(3 : ℚ)] (5 / 100) =
      some ⟨3 - |(3 : ℚ)| * (5 / 100), 3 + |(3 : ℚ)| * (5 / 100)⟩ :=
  (c2_calculateAxisBounds_spec [(3 : ℚ)] (5 / 100)).2.2.1 3 (by norm_num)

/-- Claim C10: on a non-empty uniform list with an explicit padding fraction
of `0`, the hard fallback padding of `1` fires even though the repeated value
is not zero, because `|min| * 0 = 0`. -/
theorem c10_uniform_values_zero_fraction (v : ℚ) (values : List ℚ)
    (hne : values ≠ []) (hall : ∀ z ∈ values, z = v) :
    calculateAxisBounds values 0 = some ⟨v - 1, v + 1⟩ := by
  match values with
  | [] => exact absurd rfl hne
  | w :: ws =>
    have hmn : ws.foldl min w = v := hall _ (foldlMin_mem ws w)
    have hmx : ws.foldl max w = v := hall _ (foldlMax_mem ws w)
    simp only [calculateAxisBounds, hmn, hmx]
    norm_num

/-- Witness for C10 at the uniform list `[3, 3]` with fraction `0`. -/
theorem c10_witness : calculateAxisBounds [(3 : ℚ), 3] 0 = some ⟨3 - 1, 3 + 1⟩ :=
  c10_uniform_values_zero_fraction 3 [3, 3] (by decide) (by decide)

/-- Specification notion for C9: the distinct elements of a list in
first-seen order (each head kept, its later duplicates filtered away). -/
def firstSeenDistinct : List String → List String
  | [] => []
  | c :: rest => c :: firstSeenDistinct (rest.filter (fun z => z != c))
termination_by l => l.length
decreasing_by
  simp only [List.length_cons]
  exact Nat.lt_succ_of_le (List.length_filter_le _ _)

/-- The loop of `extractCategories`, restated on the bare category strings. -/
def goStr : List String → List String → List String → List String
  | [], _, cats => cats
  | c :: rest, seen, cats =>
    if c ∈ seen then goStr rest seen cats
    else goStr rest (c :: seen) (cats ++ [c])

/-- The point loop of `extractCategories` only looks at the category fields. -/
theorem extractCategoriesGo_eq_goStr (points : List ScatterPoint) :
    ∀ (seen cats : List String),
      extractCategoriesGo points seen cats =
        goStr (points.filterMap (fun p => p.category)) seen cats := by
  induction points with
  | nil => intro seen cats; rfl
  | cons p rest ih =>
    intro seen cats
    match hc : p.category with
    | none =>
      simp only [extractCategoriesGo, hc, List.filterMap_cons, ih]
    | some c =>
      simp only [extractCategoriesGo, hc, List.filterMap_cons, goStr]
      by_cases hmem : c ∈ seen
      · simp only [if_pos hmem, ih]
      · simp only [if_neg hmem, ih]

/-- The string loop emits exactly the unseen categories, in first-seen
order, appended to the accumulator. -/
theorem goStr_eq_firstSeenDistinct (l : List String) :
    ∀ (seen cats : List String),
      goStr l seen cats =
        cats ++ firstSeenDistinct (l.filter (fun z => !decide (z ∈ seen))) := by
  induction l with
  | nil => intro seen cats; simp [goStr, firstSeenDistinct]
  | cons c rest ih =>
    intro seen cats
    by_cases hc : c ∈ seen
    · have hpc : (!decide (c ∈ seen)) = false := by simp [hc]
      simp only [goStr, if_pos hc, List.filter_cons, hpc, Bool.false_eq_true,
        if_neg, ih]
      simp
    · have hpc : (!decide (c ∈ seen)) = true := by simp [hc]
      have hfuse : (rest.filter (fun z => !decide (z ∈ seen))).filter
            (fun z => z != c) =
          rest.filter (fun z => !decide (z ∈ c :: seen)) := by
        rw [List.filter_filter]
        refine List.filter_congr ?_
        intro z _
        by_cases hz : z ∈ seen <;> by_cases hzc : z = c <;>
          simp [hz, hzc, List.mem_cons]
      simp only [goStr, if_neg hc, ih, List.filter_cons, hpc, if_pos]
      rw [firstSeenDistinct, hfuse]
      simp

/-- A dummy entry for concrete test inputs. -/
def entry0 : BasesEntry := ⟨fun _ => .returns none, ⟨("note.md"), ("note")⟩⟩

/-- A concrete point carrying only a category, for concrete test inputs. -/
def catPoint (c : Option String) : ScatterPoint :=
  ⟨0, 0, c, ("note"), ⟨("note.md"), ("note")⟩, entry0⟩

/-- Points whose categories read `[C, A, B, A, null, C]`. -/
def catExamplePoints : List ScatterPoint :=
  [catPoint (some ("C")), catPoint (some ("A")), catPoint (some ("B")),
    catPoint (some ("A")), catPoint none, catPoint (some ("C"))]

/-- Claim C9: `extractCategories` returns the distinct category labels in
first-seen order, with null categories excluded and no sorting; on categories
`[C, A, B, A, null, C]` it returns `[C, A, B]`. -/
theorem c9_extractCategories_spec :
    (∀ points : List ScatterPoint,
      extractCategories points =
        firstSeenDistinct (points.filterMap (fun p => p.category))) ∧
    extractCategories catExamplePoints = [("C"), ("A"), ("B")] := by
  constructor
  · intro points
    rw [extractCategories, extractCategoriesGo_eq_goStr,
      goStr_eq_firstSeenDistinct]
    simp
  · rfl

/-- The association list `createCategoryColorMap` builds when all keys are
fresh: each category paired with the palette color at its running index. -/
def colorAssoc (palette : ColorPalette) : List String → Nat → List (String × String)
  | [], _ => []
  | c :: rest, index =>
    (c, palette.colors.getD (index % palette.colors.length) ("undefined")) ::
      colorAssoc palette rest (index + 1)

/-- `Map.set` with a fresh key appends. -/
theorem mapSet_fresh (m : List (String × String)) (k v : String)
    (hk : ∀ pair ∈ m, pair.1 ≠ k) : mapSet m k v = m ++ [(k, v)] := by
  induction m with
  | nil => rfl
  | cons hd rest ih =>
    have hne : hd.1 ≠ k := hk hd (List.mem_cons_self hd rest)
    simp only [mapSet, if_neg hne]
    rw [ih (fun pair hp => hk pair (List.mem_cons_of_mem hd hp))]
    rfl

/-- With pairwise-distinct categories that are all fresh for the accumulated
map, the `forEach` loop appends one pair per category. -/
theorem createCategoryColorMapGo_eq (palette : ColorPalette) (cats : List String) :
    ∀ (i : Nat) (m : List (String × String)), cats.Nodup →
      (∀ c ∈ cats, ∀ pair ∈ m, pair.1 ≠ c) →
      createCategoryColorMapGo palette cats i m = m ++ colorAssoc palette cats i := by
  induction cats with
  | nil => intro i m _ _; simp [createCategoryColorMapGo, colorAssoc]
  | cons c rest ih =>
    intro i m hnd hfresh
    have hset : mapSet m c
        (palette.colors.getD (i % palette.colors.length) ("undefined")) =
        m ++ [(c, palette.colors.getD (i % palette.colors.length) ("undefined"))] :=
      mapSet_fresh m c _ (fun pair hp => hfresh c (List.mem_cons_self c rest) pair hp)
    have hnd2 : rest.Nodup := (List.nodup_cons.mp hnd).2
    have hnotmem : c ∉ rest := (List.nodup_cons.mp hnd).1
    have hfresh2 : ∀ z ∈ rest, ∀ pair ∈
        m ++ [(c, palette.colors.getD (i % palette.colors.length) ("undefined"))],
        pair.1 ≠ z := by
      intro z hz pair hp
      rcases List.mem_append.mp hp with hp1 | hp1
      · exact hfresh z (List.mem_cons_of_mem c hz) pair hp1
      · simp only [List.mem_singleton] at hp1
        subst hp1
        intro hcz
        rw [← hcz] at hz
        exact hnotmem hz
    simp only [createCategoryColorMapGo, hset, ih (i + 1) _ hnd2 hfresh2,
      colorAssoc, List.append_assoc, List.singleton_append]

/-- Lookup in the fresh-key association list gives the color at
`(startIndex + position) mod palette size`. -/
theorem mapGet_colorAssoc (palette : ColorPalette) (cats : List String) :
    ∀ (j i : Nat) (hi : i < cats.length), cats.Nodup →
      mapGet (colorAssoc palette cats j) (cats.get ⟨i, hi⟩) =
        some (palette.colors.getD ((j + i) % palette.colors.length) ("undefined")) := by
  induction cats with
  | nil => intro j i hi; simp at hi
  | cons c rest ih =>
    intro j i hi hnd
    match i with
    | 0 => simp [colorAssoc, mapGet, List.get]
    | Nat.succ i2 =>
      have hi2 : i2 < rest.length := by
        simp only [List.length_cons] at hi
        omega
      have hnotmem : c ∉ rest := (List.nodup_cons.mp hnd).1
      have hget : (c :: rest).get ⟨i2 + 1, hi⟩ = rest.get ⟨i2, hi2⟩ := rfl
      have hne : c ≠ rest.get ⟨i2, hi2⟩ := by
        intro hc
        exact hnotmem (hc ▸ List.get_mem rest i2 hi2)
      rw [hget, colorAssoc]
      simp only [mapGet]
      rw [if_neg hne, ih (j + 1) i2 hi2 (List.nodup_cons.mp hnd).2]
      have harith : j + 1 + i2 = j + (i2 + 1) := by omega
      rw [harith]

/-- Claim C8: with distinct category labels, `createCategoryColorMap` maps
the category at index `i` to the palette color at `i mod (number of colors)`
(cyclic reuse), and `getPointColor` falls back for an absent or unmapped
category — even on an empty map — and returns the mapped color otherwise. -/
theorem c8_colorMap_spec (categories : List String) (palette : ColorPalette)
    (hnodup : categories.Nodup) :
    (∀ (i : Nat) (hi : i < categories.length),
      mapGet (createCategoryColorMap categories palette)
          (categories.get ⟨i, hi⟩) =
        some (palette.colors.getD (i % palette.colors.length) ("undefined"))) ∧
    (∀ (point : ScatterPoint) (colorMap : List (String × String)) (fb : String),
      (point.category = none → getPointColor point colorMap fb = fb) ∧
      (∀ c, point.category = some c → mapGet colorMap c = none →
        getPointColor point colorMap fb = fb) ∧
      (∀ c col, point.category = some c → mapGet colorMap c = some col →
        getPointColor point colorMap fb = col)) := by
  constructor
  · intro i hi
    rw [createCategoryColorMap,
      createCategoryColorMapGo_eq palette categories 0 [] hnodup
        (by intro c _ pair hp; simp at hp),
      List.nil_append,
      mapGet_colorAssoc palette categories 0 i hi hnodup,
      Nat.zero_add]
  · intro point colorMap fb
    refine ⟨?_, ?_, ?_⟩
    · intro h
      simp [getPointColor, h]
    · intro c hc hget
      simp [getPointColor, hc, hget]
    · intro c col hc hget
      simp [getPointColor, hc, hget]

/-- Witness for C8: three distinct categories over a two-color palette; the
third category cycles back to the first color. -/
theorem c8_witness :
    mapGet (createCategoryColorMap [("a"), ("b"), ("c")]
        ⟨("gray"), [("red"), ("green")]⟩) (("c")) = some ("red") := by
  have h := (c8_colorMap_spec [("a"), ("b"), ("c")]
    ⟨("gray"), [("red"), ("green")]⟩ (by decide)).1 2 (by decide)
  simpa using h

/-- A non-degenerate linear scale sends the domain minimum to the range
start. -/
theorem createLinearScale_atMin (d0 d1 r0 r1 : ℚ) (h : d1 - d0 ≠ 0) :
    createLinearScale d0 d1 r0 r1 d0 = r0 := by
  simp only [createLinearScale, if_neg h]
  simp

/-- A non-degenerate linear scale sends the domain maximum to the range
end. -/
theorem createLinearScale_atMax (d0 d1 r0 r1 : ℚ) (h : d1 - d0 ≠ 0) :
    createLinearScale d0 d1 r0 r1 d1 = r1 := by
  simp only [createLinearScale, if_neg h]
  rw [div_self h]
  ring

/-- A concrete palette for concrete test inputs. -/
def pal0 : ColorPalette := ⟨("gray"), [("red"), ("green")]⟩

/-- Claim C4 (amended): for non-degenerate bounds on both axes,
`transformPointsToScreen` returns one output per input in order, each output
being the input point extended with exactly `screenX`, `screenY` and `color`;
the Y scale is inverted, so `y = bounds.y.min` lands at `innerHeight` and
`y = bounds.y.max` at `0`, while `x = bounds.x.min` lands at `0` and
`x = bounds.x.max` at `innerWidth`. -/
theorem c4_transformPointsToScreen_spec (points : List ScatterPoint)
    (bounds : PlotBounds) (inner : InnerDimensions)
    (colorMap : List (String × String)) (palette : ColorPalette)
    (hx : bounds.x.min ≠ bounds.x.max) (hy : bounds.y.min ≠ bounds.y.max) :
    (transformPointsToScreen points bounds inner colorMap palette).map
        (fun r => r.toScatterPoint) = points ∧
    ∀ r ∈ transformPointsToScreen points bounds inner colorMap palette,
      r.color = getPointColor r.toScatterPoint colorMap palette.fallback ∧
      (r.x = bounds.x.min → r.screenX = 0) ∧
      (r.x = bounds.x.max → r.screenX = inner.width) ∧
      (r.y = bounds.y.min → r.screenY = inner.height) ∧
      (r.y = bounds.y.max → r.screenY = 0) := by
  have hxs : bounds.x.max - bounds.x.min ≠ 0 := sub_ne_zero.mpr (Ne.symm hx)
  have hys : bounds.y.max - bounds.y.min ≠ 0 := sub_ne_zero.mpr (Ne.symm hy)
  constructor
  · simp only [transformPointsToScreen, List.map_map]
    exact List.map_id points
  · intro r hr
    simp only [transformPointsToScreen, List.mem_map] at hr
    obtain ⟨p, hp, hpr⟩ := hr
    subst hpr
    refine ⟨rfl, ?_, ?_, ?_, ?_⟩
    · intro h
      show createLinearScale bounds.x.min bounds.x.max 0 inner.width p.x = 0
      rw [h]
      exact createLinearScale_atMin _ _ _ _ hxs
    · intro h
      show createLinearScale bounds.x.min bounds.x.max 0 inner.width p.x =
        inner.width
      rw [h]
      exact createLinearScale_atMax _ _ _ _ hxs
    · intro h
      show createLinearScale bounds.y.min bounds.y.max inner.height 0 p.y =
        inner.height
      rw [h]
      exact createLinearScale_atMin _ _ _ _ hys
    · intro h
      show createLinearScale bounds.y.min bounds.y.max inner.height 0 p.y = 0
      rw [h]
      exact createLinearScale_atMax _ _ _ _ hys

/-- Counterexample to C4 as stated for every bounds: with a degenerate X axis
(`min = max = 0`), the point at `x = bounds.x.min` is sent to the constant
midpoint `innerWidth / 2 = 5`, not to `0`. -/
theorem c4_counterexample :
    (transformPointsToScreen [catPoint none] ⟨⟨0, 0⟩, ⟨0, 1⟩⟩ ⟨10, 10⟩ []
        pal0).map (fun r => r.screenX) = [5] ∧
    (catPoint none).x = (0 : ℚ) ∧ (5 : ℚ) ≠ 0 := by
  refine ⟨?_, rfl, by norm_num⟩
  simp only [transformPointsToScreen, List.map_map, List.map_cons, List.map_nil]
  norm_num [createLinearScale]

/-- Witness for C4 at non-degenerate bounds: the output projects back to the
input list. -/
theorem c4_witness :
    (transformPointsToScreen [catPoint none] ⟨⟨0, 100⟩, ⟨0, 100⟩⟩ ⟨500, 400⟩ []
        pal0).map (fun r => r.toScatterPoint) = [catPoint none] :=
  (c4_transformPointsToScreen_spec [catPoint none] ⟨⟨0, 100⟩, ⟨0, 100⟩⟩
    ⟨500, 400⟩ [] pal0 (by decide) (by decide)).1

/-- Claim C1 (amended): `entryToPoint` applies its checks in the order
X-axis configured, Y-axis configured, X extraction, Y extraction — the first
failure gives the skip reason — and the category extraction is attempted only
after both numeric extractions succeed, its failure yielding a null category,
never a skip. -/
theorem c1_entryToPoint_order (jsNumber : String → JSNum) (entry : BasesEntry)
    (config : ScatterConfig) :
    (config.xAxis = none →
      entryToPoint jsNumber entry config =
        .skipped ⟨entry.file, "X axis property not configured"⟩) ∧
    (∀ xA, config.xAxis = some xA → config.yAxis = none →
      entryToPoint jsNumber entry config =
        .skipped ⟨entry.file, "Y axis property not configured"⟩) ∧
    (∀ xA yA r, config.xAxis = some xA → config.yAxis = some yA →
      extractNumericValue jsNumber entry xA = .failure r →
      entryToPoint jsNumber entry config = .skipped ⟨entry.file, r⟩) ∧
    (∀ xA yA xv r, config.xAxis = some xA → config.yAxis = some yA →
      extractNumericValue jsNumber entry xA = .success xv →
      extractNumericValue jsNumber entry yA = .failure r →
      entryToPoint jsNumber entry config = .skipped ⟨entry.file, r⟩) ∧
    (∀ xA yA xv yv, config.xAxis = some xA → config.yAxis = some yA →
      extractNumericValue jsNumber entry xA = .success xv →
      extractNumericValue jsNumber entry yA = .success yv →
      entryToPoint jsNumber entry config =
        .point ⟨xv, yv,
          (match extractCategoryValue entry config.colorBy with
            | .success c => some c
            | .failure => none),
          entry.file.basename, entry.file, entry⟩) := by
  refine ⟨?_, ?_, ?_, ?_, ?_⟩
  · intro h
    simp [entryToPoint, h]
  · intro xA hx hy
    simp [entryToPoint, hx, hy]
  · intro xA yA r hx hy hxr
    simp [entryToPoint, hx, hy, hxr]
  · intro xA yA xv r hx hy hxr hyr
    simp [entryToPoint, hx, hy, hxr, hyr]
  · intro xA yA xv yv hx hy hxr hyr
    simp [entryToPoint, hx, hy, hxr, hyr]

/-- Witness for C1: with no X axis configured, the entry is skipped with the
X-configuration reason. -/
theorem c1_witness :
    entryToPoint (fun _ => JSNum.nan) entry0 ⟨none, none, none⟩ =
      .skipped ⟨entry0.file, "X axis property not configured"⟩ :=
  (c1_entryToPoint_order (fun _ => JSNum.nan) entry0 ⟨none, none, none⟩).1 rfl

/-- Counterexample to C1 as stated: the claimed order puts the X extraction
check before the Y-configured check, but with an X property that fails
extraction (`entry0` holds no values) and no Y axis configured, the code
reports the Y-configuration reason, not the X extraction reason. -/
theorem c1_counterexample :
    extractNumericValue (fun _ => JSNum.nan) entry0 ("x") =
      .failure ("Property \"x\" is empty") ∧
    entryToPoint (fun _ => JSNum.nan) entry0 ⟨some ("x"), none, none⟩ =
      .skipped ⟨entry0.file, "Y axis property not configured"⟩ ∧
    ("Y axis property not configured" : String) ≠ "Property \"x\" is empty" := by
  refine ⟨rfl, rfl, by decide⟩

/-- Claim C3: `extractNumericValue` is a total function (the embedding folds
the `try/catch` into the `throws` branch, so it never raises) and classifies
every outcome: empty or null field, NaN parse, non-finite parse, exception
during field access; every `Success` carries a value obtained from a finite
parse. -/
theorem c3_extractNumericValue_cases (jsNumber : String → JSNum)
    (entry : BasesEntry) (pid : String) :
    (∀ e, entry.getValue pid = .throws e →
      extractNumericValue jsNumber entry pid =
        .failure (s!"Failed to read property \"{pid}\": {e}")) ∧
    (∀ v, entry.getValue pid = .returns v → isValueEmpty v = true →
      extractNumericValue jsNumber entry pid =
        .failure (s!"Property \"{pid}\" is empty")) ∧
    (∀ w s, entry.getValue pid = .returns (some w) →
      isValueEmpty (some w) = false → w.str = s → jsNumber s = .nan →
      extractNumericValue jsNumber entry pid =
        .failure (s!"Property \"{pid}\" value \"{s}\" is not numeric")) ∧
    (∀ w, entry.getValue pid = .returns (some w) →
      isValueEmpty (some w) = false →
      (jsNumber w.str = .posInf ∨ jsNumber w.str = .negInf) →
      extractNumericValue jsNumber entry pid =
        .failure (s!"Property \"{pid}\" value is not finite")) ∧
    (∀ w q, entry.getValue pid = .returns (some w) →
      isValueEmpty (some w) = false → jsNumber w.str = .finite q →
      extractNumericValue jsNumber entry pid = .success q) ∧
    (∀ q, extractNumericValue jsNumber entry pid = .success q →
      ∃ w, entry.getValue pid = .returns (some w) ∧
        isValueEmpty (some w) = false ∧ jsNumber w.str = .finite q) := by
  refine ⟨?_, ?_, ?_, ?_, ?_, ?_⟩
  · intro e h
    simp [extractNumericValue, h]
  · intro v h hemp
    match v with
    | none => simp [extractNumericValue, h]
    | some w => simp [extractNumericValue, h, hemp]
  · intro w s h hemp hs hn
    subst hs
    simp [extractNumericValue, h, hemp, hn]
  · intro w h hemp hor
    rcases hor with h1 | h1 <;> simp [extractNumericValue, h, hemp, h1]
  · intro w q h hemp hn
    simp [extractNumericValue, h, hemp, hn]
  · intro q hsucc
    rcases hout : entry.getValue pid with e | v
    · simp [extractNumericValue, hout] at hsucc
    · match v with
      | none =>
        simp [extractNumericValue, hout] at hsucc
      | some w =>
        simp only [extractNumericValue, hout] at hsucc
        by_cases hemp : isValueEmpty (some w) = true
        · rw [if_pos hemp] at hsucc
          simp at hsucc
        · rw [if_neg hemp] at hsucc
          rcases hn : jsNumber w.str with _ | _ | _ | q2 <;> rw [hn] at hsucc <;>
            simp at hsucc
          exact ⟨w, rfl, by simpa using hemp, by rw [hn, hsucc]⟩

/-- An entry whose field accesses all raise, for the C3 witness. -/
def entryThrows : BasesEntry := ⟨fun _ => .throws ("boom"), ⟨("t.md"), ("t")⟩⟩

/-- Witness for C3: an exception during field access becomes a tagged
failure wrapping the error text. -/
theorem c3_witness :
    extractNumericValue (fun _ => JSNum.nan) entryThrows ("p") =
      .failure ("Failed to read property \"p\": boom") :=
  (c3_extractNumericValue_cases (fun _ => JSNum.nan) entryThrows ("p")).1
    ("boom") rfl
